import Mathlib

/-!
Shallow embedding of the `/burn` load generator and the Redis list handlers
of `main.go` (dojo-guestbook), with theorems checking the specification's
claims against the code.

Conventions of the embedding:
* Go `int` is 64-bit here; `strconv.Atoi` is modelled by `goAtoi`, which
  fails exactly when Go's does (empty string, stray characters, or a value
  outside the signed 64-bit range).
* `time.Duration` arithmetic is signed 64-bit with two's-complement wrap,
  modelled by `wrap64` over `Int`.
* The float64 state of a worker's compute loop is modelled over `ℚ` with the
  square-root function left abstract (a parameter `sq`): every claim proved
  about the loop holds for an arbitrary `sq`, hence in particular for the
  rounded float64 square root.
* The handler body is sequentialized into an event trace (`BurnEvent`):
  allocations, the single deadline establishment, worker spawns, the
  completion-signal receives, and the final response, in source order.
-/

/-! ### Go integer parsing (`strconv.Atoi`) -/

/-- Decimal value of a digit character, `none` for a non-digit. -/
def digitVal (c : Char) : Option Nat :=
  if '0' ≤ c ∧ c ≤ '9' then some (c.toNat - '0'.toNat) else none

/-- Accumulating decimal parse of a digit list; fails on any non-digit. -/
def parseDigitsAux : List Char → Nat → Option Nat
  | [], acc => some acc
  | c :: cs, acc =>
    match digitVal c with
    | some d => parseDigitsAux cs (acc * 10 + d)
    | none => none

/-- Parse a nonempty all-digit list as a natural number. -/
def parseDigits : List Char → Option Nat
  | [] => none
  | c :: cs => parseDigitsAux (c :: cs) 0

/-- Smallest Go int64. -/
def int64Min : Int := -(2 ^ 63)

/-- Largest Go int64. -/
def int64Max : Int := 2 ^ 63 - 1

/-- Model of Go's `strconv.Atoi`: an optional sign, then one or more decimal
digits, and the signed value must fit in int64; anything else is an error
(`none`). Go returns a non-nil error on range overflow, so overflow is
`none` here as well. -/
def goAtoi (s : String) : Option Int :=
  match s.data with
  | [] => none
  | c :: cs =>
    let signAndDigits : Bool × List Char :=
      if c = '-' then (true, cs)
      else if c = '+' then (false, cs)
      else (false, c :: cs)
    match parseDigits signAndDigits.2 with
    | none => none
    | some n =>
      let v : Int := if signAndDigits.1 then -(n : Int) else (n : Int)
      if int64Min ≤ v ∧ v ≤ int64Max then some v else none

/-- Embedding of `atoiDefault` (main.go lines 40-45): the parsed value when
`strconv.Atoi` succeeds, the default `d` otherwise. -/
def atoiDefault (s : String) (d : Int) : Int :=
  match goAtoi s with
  | some v => v
  | none => d

/-! ### The parameter resolver (BurnHandler lines 106-119) -/

/-- Resolved load parameters of a `/burn` request. -/
structure LoadRequest where
  seconds : Int
  workers : Int
  memMB : Int
deriving DecidableEq, Repr

/-- Embedding of the parameter resolution at the top of `BurnHandler`
(main.go lines 106-119): parse each query value with `atoiDefault` and
clamp. `numCPU` is `runtime.NumCPU()`, the default for `workers`. An absent
query parameter reaches `atoiDefault` as the empty string, exactly as Go's
`url.Values.Get` returns `""`. -/
def resolveParams (sSec sWork sMem : String) (numCPU : Int) : LoadRequest :=
  let seconds0 := atoiDefault sSec 20
  let seconds := if seconds0 < 1 then 1 else seconds0
  let workers0 := atoiDefault sWork numCPU
  let workers := if workers0 < 1 then 1 else workers0
  let memMB0 := atoiDefault sMem 0
  let memMB := if memMB0 < 0 then 0 else memMB0
  ⟨seconds, workers, memMB⟩

/-- Resolver written from the specification's words, for the refinement
comparison: each field defaults on parse failure (20, processor count, 0)
and is then clamped from below (`seconds`,`workers` to 1, `memMB` to 0). -/
def resolveSpec (sSec sWork sMem : String) (numCPU : Int) : LoadRequest :=
  { seconds := max 1 ((goAtoi sSec).getD 20)
  , workers := max 1 ((goAtoi sWork).getD numCPU)
  , memMB := max 0 ((goAtoi sMem).getD 0) }

/-! ### Timeout arithmetic (BurnHandler line 131) -/

/-- Two's-complement wrap of an integer into the signed 64-bit range, the
result of any overflowing Go int64 operation. -/
def wrap64 (x : Int) : Int := (x + 2 ^ 63) % 2 ^ 64 - 2 ^ 63

/-- Embedding of `time.Duration(seconds) * time.Second`: the product
`seconds * 10^9` in wrapping signed 64-bit arithmetic, in nanoseconds. -/
def goDuration (seconds : Int) : Int := wrap64 (seconds * 1000000000)

/-- Modelled from the Go standard library: `context.WithTimeout` with a
non-positive duration produces a context whose deadline is already in the
past, so it is expired from the start. -/
def contextExpiresImmediately (d : Int) : Prop := d ≤ 0

instance (d : Int) : Decidable (contextExpiresImmediately d) := by
  unfold contextExpiresImmediately; infer_instance

/-! ### The memory pressure allocator (BurnHandler lines 121-129) -/

/-- Model of one Go byte slice: its length, its contents, and a log of the
offsets written to it (in write order). -/
structure Block where
  size : Nat
  data : Nat → Nat
  writes : List Nat

/-- Embedding of `make([]byte, n)`: a zeroed slice with an empty write log. -/
def goMake (n : Nat) : Block := ⟨n, fun _ => 0, []⟩

/-- Embedding of `b[j] = byte(j)` for a general value: update position `j`
and record the write. Go's `byte(j)` is `j % 256`. -/
def blockWrite (b : Block) (j v : Nat) : Block :=
  ⟨b.size, fun i => if i = j then v else b.data i, b.writes ++ [j]⟩

/-- The sequence of loop indices of `for j := 0; j < size; j += 4096`,
starting from `j`. -/
def touchOffs (size : Nat) (j : Nat) : List Nat :=
  if _h : j < size then j :: touchOffs size (j + 4096) else []
termination_by size - j
decreasing_by omega

/-- Perform the body `b[j] = byte(j)` at each offset in order. -/
def applyWrites (b : Block) : List Nat → Block
  | [] => b
  | j :: js => applyWrites (blockWrite b j (j % 256)) js

/-- Embedding of the allocation of one block inside the `memMB` loop
(main.go lines 124-127): `b := make([]byte, 1024*1024)` followed by the
page-touch loop. -/
def mkBlock : Block := applyWrites (goMake (1024 * 1024)) (touchOffs (1024 * 1024) 0)

/-- Embedding of the outer loop `for i := 0; i < memMB; i++` appending each
touched block to `junk` (main.go lines 122-129). -/
def allocLoop : Nat → List Block → List Block
  | 0, junk => junk
  | n + 1, junk => allocLoop n (junk ++ [mkBlock])

/-! ### The handler trace, worker pool and response (lines 131-161) -/

/-- One observable step of BurnHandler, in source order: a block allocation,
the single `context.WithTimeout` establishment (with the computed duration),
a goroutine spawn (with the deadline the goroutine closes over), one receive
on the `done` channel, and the final write of the response. -/
inductive BurnEvent where
  | alloc (b : Block)
  | setDeadline (d : Int)
  | spawn (d : Int)
  | recv
  | respond

/-- Discriminator for allocation events. -/
def isAlloc : BurnEvent → Bool
  | .alloc _ => true
  | _ => false

/-- Discriminator for deadline-establishment events. -/
def isDeadlineEv : BurnEvent → Bool
  | .setDeadline _ => true
  | _ => false

/-- Discriminator for goroutine-spawn events. -/
def isSpawn : BurnEvent → Bool
  | .spawn _ => true
  | _ => false

/-- Discriminator for completion-signal receives. -/
def isRecv : BurnEvent → Bool
  | .recv => true
  | _ => false

/-- Sequentialized trace of one BurnHandler invocation with resolved
parameters `p`: the `memMB` allocations, then the one shared deadline, then
`workers` spawns all closing over that same deadline, then the `workers`
receives of the wait loop, then the response write. -/
def burnEvents (p : LoadRequest) : List BurnEvent :=
  (allocLoop p.memMB.toNat []).map BurnEvent.alloc
    ++ [BurnEvent.setDeadline (goDuration p.seconds)]
    ++ List.replicate p.workers.toNat (BurnEvent.spawn (goDuration p.seconds))
    ++ List.replicate p.workers.toNat BurnEvent.recv
    ++ [BurnEvent.respond]

/-- An HTTP response as the handler produces it: Go's `ResponseWriter.Write`
without a prior `WriteHeader` sends status 200. -/
structure HttpResponse where
  status : Nat
  contentType : String
  body : String
deriving DecidableEq, Repr

/-- The unconditional response of a completed `/burn` request
(main.go lines 160-161). -/
def burnResponse : HttpResponse :=
  ⟨200, "application/json", "\x7b\"ok\":true\x7d"⟩

/-- Embedding of the whole `BurnHandler` on the three raw query strings: the
event trace of the invocation and the response it writes. -/
def BurnHandlerModel (sSec sWork sMem : String) (numCPU : Int) :
    List BurnEvent × HttpResponse :=
  (burnEvents (resolveParams sSec sWork sMem numCPU), burnResponse)

/-! ### The worker compute loop (lines 137-152) -/

/-- Starting value and reset value of the compute recurrence, `0.0001`. -/
def burnEps : ℚ := 1 / 10000

/-- One iteration of the compute body (main.go lines 146-149):
`x += sqrt(x)`, then reset to the epsilon when `x` exceeds `1e9`. The
square-root function `sq` is an abstract parameter (float64 `math.Sqrt` is
one instance). -/
def burnStep (sq : ℚ → ℚ) (x : ℚ) : ℚ :=
  let y := x + sq x
  if y > 1e9 then burnEps else y

/-- Embedding of one worker goroutine (main.go lines 137-152), run for at
most `fuel` iterations starting at poll instant `t` with accumulator `x`.
`e t` is the non-blocking `select` test of `ctx.Done()` at instant `t`.
Returns the final accumulator, the number of completion signals sent on
`done`, and whether the goroutine has returned. -/
def workerLoop (e : Nat → Bool) (sq : ℚ → ℚ) : Nat → Nat → ℚ → ℚ × Nat × Bool
  | 0, _, x => (x, 0, false)
  | fuel + 1, t, x =>
    if e t then (x, 1, true)
    else workerLoop e sq fuel (t + 1) (burnStep sq x)

/-- The trace up to and including the deadline establishment: everything the
handler does before the first goroutine is spawned. -/
def burnPrefix (p : LoadRequest) : List BurnEvent :=
  (allocLoop p.memMB.toNat []).map BurnEvent.alloc
    ++ [BurnEvent.setDeadline (goDuration p.seconds)]

/-- The trace from the first spawn on: the spawns, the receives, and the
response write. -/
def burnSuffix (p : LoadRequest) : List BurnEvent :=
  List.replicate p.workers.toNat (BurnEvent.spawn (goDuration p.seconds))
    ++ List.replicate p.workers.toNat BurnEvent.recv
    ++ [BurnEvent.respond]

/-- The trace of everything the handler does before returning the response. -/
def burnBody (p : LoadRequest) : List BurnEvent :=
  (allocLoop p.memMB.toNat []).map BurnEvent.alloc
    ++ [BurnEvent.setDeadline (goDuration p.seconds)]
    ++ List.replicate p.workers.toNat (BurnEvent.spawn (goDuration p.seconds))
    ++ List.replicate p.workers.toNat BurnEvent.recv

/-! ### The Redis list handlers (main.go lines 56-71) -/

/-- State of the external Redis lists: each key's members, in list order. -/
def RedisStore := String → List String

/-- Embedding of simpleredis `List.Add` (Redis RPUSH): append `value` at the
tail of the list stored at `key`. -/
def storeAdd (store : RedisStore) (key value : String) : RedisStore :=
  fun k => if k = key then store k ++ [value] else store k

/-- Embedding of `ListRangeHandler` (main.go lines 56-63), parameterized by
the JSON encoder `marshal`, which stands for the external
`json.MarshalIndent members "" "  "`. -/
def ListRangeHandlerModel (marshal : List String → String) (store : RedisStore)
    (key : String) : HttpResponse :=
  ⟨200, "application/json", marshal (store key)⟩

/-- Embedding of `ListPushHandler` (main.go lines 65-71): append the value,
then run `ListRangeHandler` on the same request. Returns the updated store
and the response written. -/
def ListPushHandlerModel (marshal : List String → String) (store : RedisStore)
    (key value : String) : RedisStore × HttpResponse :=
  let store2 := storeAdd store key value
  (store2, ListRangeHandlerModel marshal store2 key)

/-! ### Helper lemmas for the resolver -/

theorem atoiDefault_eq_getD (s : String) (d : Int) :
    atoiDefault s d = (goAtoi s).getD d := by
  unfold atoiDefault Option.getD
  cases goAtoi s <;> rfl

theorem if_lt_eq_max (a c : Int) : (if a < c then c else a) = max c a := by
  rcases le_or_lt c a with h | h
  · rw [if_neg (not_lt.mpr h), max_eq_right h]
  · rw [if_pos h, max_eq_left h.le]

/-- C2 auxiliary: the resolver agrees with the spec-worded resolver. -/
theorem resolveParams_eq_spec (sSec sWork sMem : String) (numCPU : Int) :
    resolveParams sSec sWork sMem numCPU = resolveSpec sSec sWork sMem numCPU := by
  unfold resolveParams resolveSpec
  simp only [atoiDefault_eq_getD, if_lt_eq_max]

/-! ### Helper lemmas for the allocator and the trace -/

theorem applyWrites_size (l : List Nat) (b : Block) :
    (applyWrites b l).size = b.size := by
  induction l generalizing b with
  | nil => rfl
  | cons j js ih => rw [applyWrites, ih]; rfl

theorem applyWrites_writes (l : List Nat) (b : Block) :
    (applyWrites b l).writes = b.writes ++ l := by
  induction l generalizing b with
  | nil => simp [applyWrites]
  | cons j js ih => simp [applyWrites, ih, blockWrite]

theorem mkBlock_size : mkBlock.size = 1024 * 1024 := by
  rw [mkBlock, applyWrites_size]
  rfl

theorem mkBlock_writes : mkBlock.writes = touchOffs (1024 * 1024) 0 := by
  rw [mkBlock, applyWrites_writes]
  rfl

theorem mem_touchOffs (m : Nat) : ∀ size j, j + 4096 * m < size →
    j + 4096 * m ∈ touchOffs size j := by
  induction m with
  | zero =>
    intro size j h
    rw [touchOffs, dif_pos (by omega : j < size)]
    simp
  | succ k ih =>
    intro size j h
    rw [touchOffs, dif_pos (by omega : j < size)]
    have h3 := ih size (j + 4096) (by omega)
    have he : j + 4096 * (k + 1) = j + 4096 + 4096 * k := by ring
    rw [he]
    exact List.mem_cons_of_mem _ h3

/-- Every page-aligned offset of a fresh block is in its write log. -/
theorem mkBlock_touches (j : Nat) (hj : j < 1024 * 1024) (hmod : j % 4096 = 0) :
    j ∈ mkBlock.writes := by
  rw [mkBlock_writes]
  obtain ⟨m, hm⟩ : 4096 ∣ j := Nat.dvd_of_mod_eq_zero hmod
  subst hm
  simpa using mem_touchOffs m (1024 * 1024) 0 (by omega)

theorem allocLoop_length (n : Nat) (junk : List Block) :
    (allocLoop n junk).length = junk.length + n := by
  induction n generalizing junk with
  | zero => rfl
  | succ m ih =>
    rw [allocLoop, ih]
    simp
    omega

theorem mem_allocLoop (n : Nat) (junk : List Block) (b : Block)
    (hb : b ∈ allocLoop n junk) : b ∈ junk ∨ b = mkBlock := by
  induction n generalizing junk with
  | zero => exact Or.inl hb
  | succ m ih =>
    rcases ih (junk ++ [mkBlock]) (by rw [allocLoop] at hb; exact hb) with h | h
    · rcases List.mem_append.mp h with h2 | h2
      · exact Or.inl h2
      · exact Or.inr (by simpa using h2)
    · exact Or.inr h

theorem burnEvents_countP_spawn (p : LoadRequest) :
    (burnEvents p).countP isSpawn = p.workers.toNat := by
  simp [burnEvents, List.countP_append, List.countP_map, List.countP_replicate,
    List.countP_singleton, isSpawn, Function.comp]

theorem burnEvents_countP_recv (p : LoadRequest) :
    (burnEvents p).countP isRecv = p.workers.toNat := by
  simp [burnEvents, List.countP_append, List.countP_map, List.countP_replicate,
    List.countP_singleton, isRecv, Function.comp]

theorem burnEvents_countP_alloc (p : LoadRequest) :
    (burnEvents p).countP isAlloc = p.memMB.toNat := by
  have hcomp : (isAlloc ∘ BurnEvent.alloc) = fun _ => true := rfl
  simp [burnEvents, List.countP_append, List.countP_map, List.countP_replicate,
    List.countP_singleton, isAlloc, hcomp, allocLoop_length]

theorem burnEvents_countP_deadline (p : LoadRequest) :
    (burnEvents p).countP isDeadlineEv = 1 := by
  simp [burnEvents, List.countP_append, List.countP_map, List.countP_replicate,
    List.countP_singleton, isDeadlineEv, Function.comp]

theorem burnEvents_eq_prefix_suffix (p : LoadRequest) :
    burnEvents p = burnPrefix p ++ burnSuffix p := by
  simp [burnEvents, burnPrefix, burnSuffix]

theorem burnEvents_eq_body_respond (p : LoadRequest) :
    burnEvents p = burnBody p ++ [BurnEvent.respond] := by
  simp [burnEvents, burnBody]

theorem burnPrefix_countP_alloc (p : LoadRequest) :
    (burnPrefix p).countP isAlloc = p.memMB.toNat := by
  have hcomp : (isAlloc ∘ BurnEvent.alloc) = fun _ => true := rfl
  simp [burnPrefix, List.countP_append, List.countP_map, List.countP_singleton,
    isAlloc, hcomp, allocLoop_length]

theorem burnPrefix_countP_spawn (p : LoadRequest) :
    (burnPrefix p).countP isSpawn = 0 := by
  simp [burnPrefix, List.countP_append, List.countP_map, List.countP_singleton,
    isSpawn, Function.comp]

theorem burnPrefix_countP_deadline (p : LoadRequest) :
    (burnPrefix p).countP isDeadlineEv = 1 := by
  simp [burnPrefix, List.countP_append, List.countP_map, List.countP_singleton,
    isDeadlineEv, Function.comp]

theorem burnSuffix_countP_alloc (p : LoadRequest) :
    (burnSuffix p).countP isAlloc = 0 := by
  simp [burnSuffix, List.countP_append, List.countP_replicate, List.countP_singleton,
    isAlloc]

theorem burnSuffix_countP_spawn (p : LoadRequest) :
    (burnSuffix p).countP isSpawn = p.workers.toNat := by
  simp [burnSuffix, List.countP_append, List.countP_replicate, List.countP_singleton,
    isSpawn]

theorem burnBody_countP_recv (p : LoadRequest) :
    (burnBody p).countP isRecv = p.workers.toNat := by
  simp [burnBody, List.countP_append, List.countP_map, List.countP_replicate,
    List.countP_singleton, isRecv, Function.comp]

/-! ### The claims -/

/-- C1: for every `/burn` request, the number of worker tasks spawned equals
the number of completion signals the handler waits for before returning, and
both equal the resolved `workers` value; the response event occurs only
after exactly that many receives on the `done` channel. -/
theorem C1_spawn_equals_await (sSec sWork sMem : String) (numCPU : Int) :
    (burnEvents (resolveParams sSec sWork sMem numCPU)).countP isSpawn
        = (resolveParams sSec sWork sMem numCPU).workers.toNat
    ∧ (burnEvents (resolveParams sSec sWork sMem numCPU)).countP isRecv
        = (resolveParams sSec sWork sMem numCPU).workers.toNat
    ∧ ∃ l1, burnEvents (resolveParams sSec sWork sMem numCPU)
          = l1 ++ [BurnEvent.respond]
        ∧ l1.countP isRecv = (resolveParams sSec sWork sMem numCPU).workers.toNat :=
  ⟨burnEvents_countP_spawn _, burnEvents_countP_recv _,
    burnBody _, burnEvents_eq_body_respond _, burnBody_countP_recv _⟩

/-- C2: the parameter resolver is a pure function of the three raw query
strings (and the processor count) and agrees with the spec's description:
default on parse failure (20, processor count, 0), then clamp from below
(`seconds` and `workers` to 1, `memMB` to 0). -/
theorem C2_parameter_resolver (sSec sWork sMem : String) (numCPU : Int) :
    resolveParams sSec sWork sMem numCPU = resolveSpec sSec sWork sMem numCPU :=
  resolveParams_eq_spec sSec sWork sMem numCPU

/-- C3: for the resolved `memMB = k`, the allocator produces exactly `k`
blocks, each of exactly `1024*1024` bytes with every 4096-byte-strided
offset written at least once, and in the handler trace every allocation
comes before every worker spawn. -/
theorem C3_memory_allocator (sSec sWork sMem : String) (numCPU : Int) :
    (allocLoop (resolveParams sSec sWork sMem numCPU).memMB.toNat []).length
        = (resolveParams sSec sWork sMem numCPU).memMB.toNat
    ∧ (∀ b, b ∈ allocLoop (resolveParams sSec sWork sMem numCPU).memMB.toNat [] →
        b.size = 1024 * 1024
        ∧ ∀ j, j < 1024 * 1024 → j % 4096 = 0 → j ∈ b.writes)
    ∧ ∃ l1 l2, burnEvents (resolveParams sSec sWork sMem numCPU) = l1 ++ l2
        ∧ l1.countP isAlloc = (resolveParams sSec sWork sMem numCPU).memMB.toNat
        ∧ l1.countP isSpawn = 0
        ∧ l2.countP isAlloc = 0
        ∧ l2.countP isSpawn = (resolveParams sSec sWork sMem numCPU).workers.toNat := by
  refine ⟨?_, ?_, burnPrefix _, burnSuffix _, burnEvents_eq_prefix_suffix _,
    burnPrefix_countP_alloc _, burnPrefix_countP_spawn _,
    burnSuffix_countP_alloc _, burnSuffix_countP_spawn _⟩
  · simpa using allocLoop_length _ []
  · intro b hb
    rcases mem_allocLoop _ _ _ hb with h | h
    · simp at h
    · subst h
      exact ⟨mkBlock_size, fun j hj hmod => mkBlock_touches j hj hmod⟩

/-- C4: a completed `/burn` request responds with status 200, Content-Type
`application/json` and body exactly `\x7b"ok":true\x7d`, for every input,
malformed or not. -/
theorem C4_response_shape (sSec sWork sMem : String) (numCPU : Int) :
    (BurnHandlerModel sSec sWork sMem numCPU).2
      = ⟨200, "application/json", "\x7b\"ok\":true\x7d"⟩ := rfl

/-- C5: a worker task emits exactly one completion signal exactly when it
terminates (no exit without signalling, no signal without terminating), and
it terminates only upon the first iteration at which the non-blocking
deadline check observes expiry. -/
theorem C5_worker_signal_discipline (e : Nat → Bool) (sq : ℚ → ℚ)
    (fuel t : Nat) (x : ℚ) :
    ((workerLoop e sq fuel t x).2.1
        = if (workerLoop e sq fuel t x).2.2 = true then 1 else 0)
    ∧ ((workerLoop e sq fuel t x).2.2 = true →
        ∃ k, k < fuel ∧ e (t + k) = true ∧ ∀ j, j < k → e (t + j) = false) := by
  induction fuel generalizing t x with
  | zero =>
    refine ⟨rfl, fun h => ?_⟩
    simp [workerLoop] at h
  | succ n ih =>
    by_cases he : e t = true
    · refine ⟨by simp [workerLoop, he], fun _ => ⟨0, Nat.succ_pos n, ?_, ?_⟩⟩
      · simpa using he
      · intro j hj
        exact absurd hj (Nat.not_lt_zero j)
    · rw [Bool.not_eq_true] at he
      have hstep : workerLoop e sq (n + 1) t x
          = workerLoop e sq n (t + 1) (burnStep sq x) := by
        simp [workerLoop, he]
      rw [hstep]
      have hrec := ih (t + 1) (burnStep sq x)
      refine ⟨hrec.1, fun hterm => ?_⟩
      obtain ⟨k, hk, hek, hprev⟩ := hrec.2 hterm
      refine ⟨k + 1, by omega, ?_, ?_⟩
      · have hkk : t + (k + 1) = t + 1 + k := by omega
        rw [hkk]
        exact hek
      · intro j hj
        cases j with
        | zero => simpa using he
        | succ i =>
          have hii : t + (i + 1) = t + 1 + i := by omega
          rw [hii]
          exact hprev i (by omega)

/-- C6: the handler establishes exactly one deadline, with duration computed
from the resolved `seconds`, before any worker spawn, and every spawned task
closes over that same shared deadline. -/
theorem C6_shared_deadline (sSec sWork sMem : String) (numCPU : Int) :
    (burnEvents (resolveParams sSec sWork sMem numCPU)).countP isDeadlineEv = 1
    ∧ (∃ l1 l2, burnEvents (resolveParams sSec sWork sMem numCPU)
          = l1 ++ BurnEvent.setDeadline
              (goDuration (resolveParams sSec sWork sMem numCPU).seconds) :: l2
        ∧ l1.countP isSpawn = 0 ∧ l1.countP isDeadlineEv = 0)
    ∧ ∀ d, BurnEvent.spawn d ∈ burnEvents (resolveParams sSec sWork sMem numCPU) →
        d = goDuration (resolveParams sSec sWork sMem numCPU).seconds := by
  refine ⟨burnEvents_countP_deadline _,
    ⟨(allocLoop (resolveParams sSec sWork sMem numCPU).memMB.toNat []).map
        BurnEvent.alloc,
      burnSuffix (resolveParams sSec sWork sMem numCPU), ?_, ?_, ?_⟩, ?_⟩
  · simp [burnEvents, burnSuffix]
  · simp [List.countP_map, isSpawn, Function.comp]
  · simp [List.countP_map, isDeadlineEv, Function.comp]
  · intro d hd
    simp [burnEvents, List.mem_append, List.mem_replicate] at hd
    exact hd.2

/-- C7: the compute loop's body is the recurrence `x + sqrt x` with a reset
to the epsilon `0.0001` whenever the sum exceeds `1e9`, and consequently the
loop value starting from the epsilon never exceeds `1e9`, for any
square-root function. -/
theorem C7_recurrence_bounded (sq : ℚ → ℚ) (n : Nat) (x : ℚ) :
    (burnStep sq x = if x + sq x > 1e9 then burnEps else x + sq x)
    ∧ (burnStep sq)^[n] burnEps ≤ 1e9 := by
  refine ⟨rfl, ?_⟩
  induction n with
  | zero =>
    norm_num [Function.iterate_zero, burnEps]
  | succ m ih =>
    rw [Function.iterate_succ_apply']
    simp only [burnStep]
    split
    · norm_num [burnEps]
    · next hy => exact le_of_not_lt hy

/-- C8: the raw query `seconds=-5&workers=0&mem_mb=-3` resolves to the same
`LoadRequest` as `seconds=1&workers=1&mem_mb=0`, namely
`⟨1, 1, 0⟩`, so the whole handler behaves identically on the two inputs. -/
theorem C8_clamp_equivalence (numCPU : Int) :
    resolveParams "-5" "0" "-3" numCPU = resolveParams "1" "1" "0" numCPU
    ∧ resolveParams "1" "1" "0" numCPU = ⟨1, 1, 0⟩
    ∧ BurnHandlerModel "-5" "0" "-3" numCPU = BurnHandlerModel "1" "1" "0" numCPU :=
  ⟨rfl, rfl, rfl⟩

/-- C9: the timeout duration is `seconds * 10^9` in wrapping signed 64-bit
arithmetic, so for every resolved `seconds` greater than `9223372036` the
computed duration differs from the requested one, and it can be non-positive,
in which case the context expires immediately. -/
theorem C9_duration_overflow (s : Int) (hs : 9223372036 < s) :
    goDuration s ≠ s * 1000000000
    ∧ ∃ t, 9223372036 < t ∧ contextExpiresImmediately (goDuration t) := by
  constructor
  · intro hEq
    have e1 : (2 : Int) ^ 63 = 9223372036854775808 := by norm_num
    have e2 : (2 : Int) ^ 64 = 18446744073709551616 := by norm_num
    have h1 : goDuration s < 9223372036854775808 := by
      unfold goDuration wrap64
      rw [e1, e2]
      omega
    rw [hEq] at h1
    omega
  · refine ⟨9223372037, by norm_num, ?_⟩
    decide

/-- C9 witness: the overflow theorem applied at the concrete resolved
`seconds = 9223372037`. -/
theorem C9_duration_overflow_witness :
    goDuration 9223372037 ≠ 9223372037 * 1000000000
    ∧ ∃ t, 9223372036 < t ∧ contextExpiresImmediately (goDuration t) :=
  C9_duration_overflow 9223372037 (by norm_num)

/-- C10: `GET /rpush/{key}/{value}` appends the value to the list at `key`
and then responds with exactly the output of `GET /lrange/{key}` on the
updated store: the marshalled array of all members, with Content-Type
`application/json`. -/
theorem C10_rpush_returns_lrange (marshal : List String → String)
    (store : RedisStore) (key value : String) :
    (ListPushHandlerModel marshal store key value).2
        = ListRangeHandlerModel marshal (storeAdd store key value) key
    ∧ (ListPushHandlerModel marshal store key value).1 key = store key ++ [value]
    ∧ (ListPushHandlerModel marshal store key value).2.contentType
        = "application/json"
    ∧ (ListPushHandlerModel marshal store key value).2.body
        = marshal (store key ++ [value]) := by
  refine ⟨rfl, ?_, rfl, ?_⟩
  · simp [ListPushHandlerModel, storeAdd]
  · simp [ListPushHandlerModel, ListRangeHandlerModel, storeAdd]
